import Mathlib

/-!
Verification of the orbital-mechanics core of the `minigame` repository
(`src/game/solar_system.rs`): the Kepler position solver, the reference
frame resolver, the simulation clock (dt clamp, angle wrap), the trail
history manager, the camera-relative recentring stage, the LOD policy and
body selection, embedded over the real numbers.
-/

/-- A 3D vector, the embedding of nalgebra's `Vector3<f32>`. -/
abbrev Vec3 : Type := ℝ × ℝ × ℝ

/-- The Kepler position solver of `SolarSystem::update`
(`solar_system.rs` lines 680-707): eccentric anomaly by the single
first-order correction `E = M + e*sin M`, orbit-plane coordinates
`x = a*(cos E - e)`, `z = a*sqrt(1 - e*e)*sin E`, then the rotation by the
argument of periapsis `w`, the inclination tilt of z into y, and the
rotation about the y axis by the longitude of ascending node `o`.
The same computation appears verbatim in the initial trail construction
(lines 441-465), the per-tick trail sampling (lines 742-765) and
`SolarSystem::render` (lines 794-816). -/
noncomputable def keplerLocalPos (a e m i w o : ℝ) : Vec3 :=
  let bigE := m + e * Real.sin m
  let xOrbRaw := a * (Real.cos bigE - e)
  let zOrbRaw := a * Real.sqrt (1 - e * e) * Real.sin bigE
  let xOrb := xOrbRaw * Real.cos w + zOrbRaw * Real.sin w
  let zOrb := -xOrbRaw * Real.sin w + zOrbRaw * Real.cos w
  let yIncl := zOrb * Real.sin i
  let zIncl := zOrb * Real.cos i
  (xOrb * Real.cos o + zIncl * Real.sin o,
   yIncl,
   -xOrb * Real.sin o + zIncl * Real.cos o)

/-- The spec's closed-form steps for the Kepler solver, written from the
wording of spec section 4.1: `E ≈ M + e·sin(M)`; `x_orb = a·(cos E − e)`,
`z_orb = a·√(1−e²)·sin E`; rotate by the argument of periapsis; tilt z into
y by the inclination; rotate about the y axis by the longitude of ascending
node. Used only to compare with `keplerLocalPos`, which is taken from the
source. -/
noncomputable def specKeplerSolver (a e m i w o : ℝ) : Vec3 :=
  let bigE := m + e * Real.sin m
  let xOrb := a * (Real.cos bigE - e)
  let zOrb := a * Real.sqrt (1 - e ^ 2) * Real.sin bigE
  let x1 := xOrb * Real.cos w + zOrb * Real.sin w
  let z1 := -xOrb * Real.sin w + zOrb * Real.cos w
  let y2 := z1 * Real.sin i
  let z2 := z1 * Real.cos i
  (x1 * Real.cos o + z2 * Real.sin o, y2, -x1 * Real.sin o + z2 * Real.cos o)

/-- Euclidean norm `sqrt (x^2 + y^2 + z^2)` of a 3D vector. -/
noncomputable def norm3 (v : Vec3) : ℝ :=
  Real.sqrt (v.1 ^ 2 + v.2.1 ^ 2 + v.2.2 ^ 2)

/-- A plane rotation preserves the sum of squares. -/
lemma rot_sum_sq (x z s c : ℝ) (h : s ^ 2 + c ^ 2 = 1) :
    (x * c + z * s) ^ 2 + (-x * s + z * c) ^ 2 = x ^ 2 + z ^ 2 := by
  linear_combination (x ^ 2 + z ^ 2) * h

/-- The three-stage rotation pipeline of the Kepler solver (argument of
periapsis, inclination tilt, ascending node) preserves the Euclidean norm
of the orbit-plane offset. -/
lemma norm3_rot (x z i w o : ℝ) :
    ((x * Real.cos w + z * Real.sin w) * Real.cos o +
        (-x * Real.sin w + z * Real.cos w) * Real.cos i * Real.sin o) ^ 2 +
      ((-x * Real.sin w + z * Real.cos w) * Real.sin i) ^ 2 +
      (-((x * Real.cos w + z * Real.sin w)) * Real.sin o +
        (-x * Real.sin w + z * Real.cos w) * Real.cos i * Real.cos o) ^ 2 =
      x ^ 2 + z ^ 2 := by
  linear_combination
    (((x * Real.cos w + z * Real.sin w) ^ 2 +
        (-x * Real.sin w + z * Real.cos w) ^ 2 * Real.cos i ^ 2) *
      Real.sin_sq_add_cos_sq o) +
    ((-x * Real.sin w + z * Real.cos w) ^ 2 * Real.sin_sq_add_cos_sq i) +
    ((x ^ 2 + z ^ 2) * Real.sin_sq_add_cos_sq w)

/-- C1: the Kepler position solver computes the local position exactly by
the spec's closed-form steps (single first-order eccentric-anomaly
correction, orbit-plane coordinates, periapsis rotation, inclination tilt,
ascending-node rotation), and a body with `orbit_radius = 0` has local
position the origin. -/
theorem kepler_solver_spec_steps :
    (∀ a e m i w o : ℝ, keplerLocalPos a e m i w o = specKeplerSolver a e m i w o) ∧
    (∀ e m i w o : ℝ, keplerLocalPos 0 e m i w o = ((0 : ℝ), (0 : ℝ), (0 : ℝ))) := by
  constructor
  · intro a e m i w o
    simp only [keplerLocalPos, specKeplerSolver, pow_two]
  · intro e m i w o
    simp [keplerLocalPos]

/-- C2: for eccentricity 0 the Kepler solver's output distance from the
parent equals `orbit_radius` for every `orbit_angle` (and every
inclination, periapsis and node angle); concretely, `orbit_radius = 100`,
`eccentricity = 0`, zero inclination at `orbit_angle = 0` yields
`(100, 0, 0)` and at `orbit_angle = pi/2` yields `(0, 0, 100)`. -/
theorem circular_orbit_distance (a m i w o : ℝ) (ha : 0 ≤ a) :
    norm3 (keplerLocalPos a 0 m i w o) = a ∧
    keplerLocalPos 100 0 0 0 0 0 = ((100 : ℝ), (0 : ℝ), (0 : ℝ)) ∧
    keplerLocalPos 100 0 (Real.pi / 2) 0 0 0 = ((0 : ℝ), (0 : ℝ), (100 : ℝ)) := by
  refine ⟨?_, ?_, ?_⟩
  · simp only [keplerLocalPos, norm3, mul_zero, zero_mul, add_zero, sub_zero,
      Real.sqrt_one, mul_one]
    rw [norm3_rot (a * Real.cos m) (a * Real.sin m) i w o]
    rw [show (a * Real.cos m) ^ 2 + (a * Real.sin m) ^ 2 = a ^ 2 by
      linear_combination a ^ 2 * Real.sin_sq_add_cos_sq m]
    exact Real.sqrt_sq ha
  · simp [keplerLocalPos]
  · simp [keplerLocalPos, Real.sin_pi_div_two, Real.cos_pi_div_two]

/-- C2 witness at concrete inputs. -/
theorem circular_orbit_distance_witness :
    norm3 (keplerLocalPos 100 0 1 2 3 4) = 100 :=
  (circular_orbit_distance 100 1 2 3 4 (by norm_num)).1

/-- The reference frame resolver of `SolarSystem::update` (lines 647,
709-713): a `positions` array initialised to zero vectors is filled in a
single forward pass over the bodies; `worldPositions loc par k` is the
array state after the first `k` bodies have been processed, each entry
being its local Kepler offset plus the already-stored position of its
parent (or nothing when it has no parent). -/
noncomputable def worldPositions (loc : ℕ → Vec3) (par : ℕ → Option ℕ) :
    ℕ → ℕ → Vec3
  | 0 => fun _ => ((0 : ℝ), (0 : ℝ), (0 : ℝ))
  | k + 1 => fun j =>
      if j = k then
        loc k + (match par k with
          | some p => worldPositions loc par k p
          | none => ((0 : ℝ), (0 : ℝ), (0 : ℝ)))
      else worldPositions loc par k j

/-- Entries already written are not changed by later steps of the pass. -/
lemma worldPositions_stable (loc : ℕ → Vec3) (par : ℕ → Option ℕ) :
    ∀ k j, j < k → worldPositions loc par k j = worldPositions loc par (j + 1) j := by
  intro k
  induction k with
  | zero => intro j hj; omega
  | succ k ih =>
      intro j hj
      by_cases hjk : j = k
      · subst hjk; rfl
      · have hlt : j < k := by omega
        calc worldPositions loc par (k + 1) j
            = worldPositions loc par k j := by
              simp only [worldPositions, if_neg hjk]
          _ = worldPositions loc par (j + 1) j := ih j hlt

/-- Earth-and-Moon local offsets for the concrete scenario: the parent's
absolute position is `(100, 0, 0)` and the child's local Kepler offset is
`(0.257, 0, 0)`. -/
noncomputable def moonLoc : ℕ → Vec3 :=
  fun j => if j = 0 then ((100 : ℝ), (0 : ℝ), (0 : ℝ)) else ((0.257 : ℝ), (0 : ℝ), (0 : ℝ))

/-- Parent links for the concrete scenario: body 1 orbits body 0. -/
def moonPar : ℕ → Option ℕ :=
  fun j => if j = 0 then none else some 0

/-- C3: under the parent-before-child ordering invariant the single forward
pass yields `world[i] = local[i] + world[parent[i]]` when a parent exists
and `world[i] = local[i]` otherwise; concretely a parent at `(100, 0, 0)`
with a child whose local offset is `(0.257, 0, 0)` gives child absolute
position `(100.257, 0, 0)`. -/
theorem reference_frame_resolver (loc : ℕ → Vec3) (par : ℕ → Option ℕ)
    (n i : ℕ) (hord : ∀ j p, par j = some p → p < j) (hi : i < n) :
    (∀ p, par i = some p →
      worldPositions loc par n i = loc i + worldPositions loc par n p) ∧
    (par i = none → worldPositions loc par n i = loc i) ∧
    worldPositions moonLoc moonPar 2 1 = ((100.257 : ℝ), (0 : ℝ), (0 : ℝ)) := by
  refine ⟨?_, ?_, ?_⟩
  · intro p hp
    have hpi : p < i := hord i p hp
    have h1 : worldPositions loc par n i = worldPositions loc par (i + 1) i :=
      worldPositions_stable loc par n i hi
    have h2 : worldPositions loc par (i + 1) i =
        loc i + worldPositions loc par i p := by
      simp [worldPositions, hp]
    have h3 : worldPositions loc par i p = worldPositions loc par n p := by
      rw [worldPositions_stable loc par i p hpi,
        worldPositions_stable loc par n p (lt_trans hpi hi)]
    rw [h1, h2, h3]
  · intro hp
    have h1 : worldPositions loc par n i = worldPositions loc par (i + 1) i :=
      worldPositions_stable loc par n i hi
    rw [h1]
    simp [worldPositions, hp, Prod.ext_iff]
  · simp [worldPositions, moonLoc, moonPar, Prod.ext_iff]
    norm_num

/-- C3 witness: the resolver equation applied to the concrete
Earth-and-Moon system. -/
theorem reference_frame_resolver_witness :
    worldPositions moonLoc moonPar 2 1 =
      moonLoc 1 + worldPositions moonLoc moonPar 2 0 :=
  (reference_frame_resolver moonLoc moonPar 2 1
    (by
      intro j p h
      by_cases hj : j = 0
      · subst hj; simp [moonPar] at h
      · simp [moonPar, hj] at h
        omega)
    (by norm_num)).1 0 (by simp [moonPar])

/-- Truncation toward zero, the rounding used by Rust's float remainder. -/
noncomputable def rtrunc (x : ℝ) : ℤ :=
  if 0 ≤ x then Int.floor x else Int.ceil x

/-- Rust's `%` on floats: `a % b = a - b * trunc (a / b)`, a truncating
remainder whose sign follows the dividend.  This is the wrap applied to
`orbit_angle`, `current_rotation`, `cloud_rotation` and
`last_trail_angle` in `SolarSystem::update`. -/
noncomputable def rustRem (a b : ℝ) : ℝ :=
  a - b * (rtrunc (a / b) : ℝ)

/-- For a nonnegative dividend the Rust remainder lands in `[0, b)`. -/
lemma rustRem_nonneg (a b : ℝ) (hb : 0 < b) (ha : 0 ≤ a) :
    0 ≤ rustRem a b ∧ rustRem a b < b := by
  have hq : 0 ≤ a / b := div_nonneg ha (le_of_lt hb)
  have e : rustRem a b = a - b * (Int.floor (a / b) : ℝ) := by
    simp [rustRem, rtrunc, hq]
  have h1 : (Int.floor (a / b) : ℝ) * b ≤ a :=
    (le_div_iff₀ hb).mp (Int.floor_le (a / b))
  have h2 : a < ((Int.floor (a / b) : ℝ) + 1) * b := by
    have := Int.lt_floor_add_one (a / b)
    calc a = a / b * b := by field_simp
      _ < ((Int.floor (a / b) : ℝ) + 1) * b := by
          exact mul_lt_mul_of_pos_right this hb
  constructor
  · rw [e]; nlinarith
  · rw [e]; nlinarith

/-- For a negative dividend the Rust remainder lands in `(-b, 0]`. -/
lemma rustRem_nonpos (a b : ℝ) (hb : 0 < b) (ha : a < 0) :
    -b < rustRem a b ∧ rustRem a b ≤ 0 := by
  have hq : a / b < 0 := div_neg_of_neg_of_pos ha hb
  have e : rustRem a b = a - b * (Int.ceil (a / b) : ℝ) := by
    simp [rustRem, rtrunc, not_le.mpr hq]
  have h1 : a ≤ (Int.ceil (a / b) : ℝ) * b :=
    (div_le_iff₀ hb).mp (Int.le_ceil (a / b))
  have h2 : ((Int.ceil (a / b) : ℝ) - 1) * b < a := by
    have := Int.ceil_lt_add_one (a / b)
    have h3 : (Int.ceil (a / b) : ℝ) - 1 < a / b := by linarith
    calc ((Int.ceil (a / b) : ℝ) - 1) * b < a / b * b :=
          mul_lt_mul_of_pos_right h3 hb
      _ = a := by field_simp
  constructor
  · rw [e]; nlinarith
  · rw [e]; nlinarith

/-- A value already inside `[0, b)` is fixed by the Rust remainder. -/
lemma rustRem_eq_self (a b : ℝ) (hb : 0 < b) (h0 : 0 ≤ a) (h1 : a < b) :
    rustRem a b = a := by
  have hfl : Int.floor (a / b) = 0 := by
    rw [Int.floor_eq_zero_iff]
    exact ⟨div_nonneg h0 (le_of_lt hb), (div_lt_one hb).mpr h1⟩
  have hq : 0 ≤ a / b := div_nonneg h0 (le_of_lt hb)
  simp [rustRem, rtrunc, hq, hfl]

/-- A value already inside `(-b, 0)` is fixed by the Rust remainder. -/
lemma rustRem_eq_self_neg (a b : ℝ) (hb : 0 < b) (h0 : -b < a) (h1 : a < 0) :
    rustRem a b = a := by
  have hcl : Int.ceil (a / b) = 0 := by
    rw [Int.ceil_eq_zero_iff]
    refine Set.mem_Ioc.mpr ⟨?_, le_of_lt (div_neg_of_neg_of_pos h1 hb)⟩
    rw [lt_div_iff₀ hb]
    linarith
  have hq : a / b < 0 := div_neg_of_neg_of_pos h1 hb
  simp [rustRem, rtrunc, not_le.mpr hq, hcl]

/-- The per-tick `orbit_angle` update for a body with a parent
(`solar_system.rs` lines 650-653): advance by
`orbit_speed * safe_dt * time_scale`, then wrap with `%= 2*pi`. -/
noncomputable def orbitAngleTick (angle speed dt ts : ℝ) : ℝ :=
  rustRem (angle + speed * dt * ts) (2 * Real.pi)

/-- The per-tick `current_rotation` update for a body with nonzero
`rotation_period` (lines 656-665): advance at rate
`2*pi / (|rotation_period| * 24 * 3600)` and wrap with `%= 2*pi`. -/
noncomputable def rotationTick (rot p dt ts : ℝ) : ℝ :=
  if p = 0 then rot
  else rustRem (rot + 2 * Real.pi / (|p| * 24 * 3600) * dt * ts) (2 * Real.pi)

/-- Two pi is positive. -/
lemma two_pi_pos : (0 : ℝ) < 2 * Real.pi := by positivity

/-- C4, amended: for a body with a parent, `orbit_angle` advances by
`orbit_speed * dt_scaled` and is wrapped by the truncating float remainder
`%`, so the stored value always lies in the open interval `(-2*pi, 2*pi)`
and lies in `[0, 2*pi)` exactly when the advanced pre-wrap angle is
nonnegative; for a negative advanced angle (negative `orbit_speed` or
`time_scale`) it lies in `(-2*pi, 0]`.  `current_rotation` advances at
rate `2*pi / (|rotation_period_days| * 86400)` and is wrapped the same
way. -/
theorem orbit_angle_advance_range (angle speed dt ts : ℝ) :
    orbitAngleTick angle speed dt ts = rustRem (angle + speed * dt * ts) (2 * Real.pi) ∧
    (-(2 * Real.pi) < orbitAngleTick angle speed dt ts ∧
      orbitAngleTick angle speed dt ts < 2 * Real.pi) ∧
    (0 ≤ angle + speed * dt * ts →
      0 ≤ orbitAngleTick angle speed dt ts ∧
        orbitAngleTick angle speed dt ts < 2 * Real.pi) ∧
    (angle + speed * dt * ts < 0 →
      -(2 * Real.pi) < orbitAngleTick angle speed dt ts ∧
        orbitAngleTick angle speed dt ts ≤ 0) ∧
    (∀ rot p, p ≠ 0 →
      rotationTick rot p dt ts =
        rustRem (rot + 2 * Real.pi / (|p| * 86400) * dt * ts) (2 * Real.pi) ∧
      -(2 * Real.pi) < rotationTick rot p dt ts ∧
        rotationTick rot p dt ts < 2 * Real.pi) := by
  refine ⟨rfl, ?_, ?_, ?_, ?_⟩
  · simp only [orbitAngleTick]
    rcases le_or_lt 0 (angle + speed * dt * ts) with h | h
    · have := rustRem_nonneg (angle + speed * dt * ts) (2 * Real.pi) two_pi_pos h
      exact ⟨by linarith [two_pi_pos, this.1], this.2⟩
    · have := rustRem_nonpos (angle + speed * dt * ts) (2 * Real.pi) two_pi_pos h
      exact ⟨this.1, by linarith [two_pi_pos, this.2]⟩
  · intro h
    exact rustRem_nonneg (angle + speed * dt * ts) (2 * Real.pi) two_pi_pos h
  · intro h
    exact rustRem_nonpos (angle + speed * dt * ts) (2 * Real.pi) two_pi_pos h
  · intro rot p hp
    refine ⟨?_, ?_⟩
    · rw [rotationTick, if_neg hp]
      norm_num [mul_assoc]
    · rw [rotationTick, if_neg hp]
      rcases le_or_lt 0 (rot + 2 * Real.pi / (|p| * 24 * 3600) * dt * ts) with h | h
      · have := rustRem_nonneg _ (2 * Real.pi) two_pi_pos h
        exact ⟨by linarith [two_pi_pos, this.1], this.2⟩
      · have := rustRem_nonpos _ (2 * Real.pi) two_pi_pos h
        exact ⟨this.1, by linarith [two_pi_pos, this.2]⟩

/-- C4 witness: the amended wrap bounds at a concrete tick. -/
theorem orbit_angle_advance_range_witness :
    0 ≤ orbitAngleTick 1 1 1 1 ∧ orbitAngleTick 1 1 1 1 < 2 * Real.pi :=
  (orbit_angle_advance_range 1 1 1 1).2.2.1 (by norm_num)

/-- C4 counterexample: the claim that the stored `orbit_angle` always lies
in `[0, 2*pi)` fails for a negative advance: from angle 0, speed -1,
dt 1, time_scale 1 the stored value is -1. -/
theorem orbit_wrap_counterexample :
    orbitAngleTick 0 (-1) 1 1 = -1 ∧
    ¬ (0 ≤ orbitAngleTick 0 (-1) 1 1 ∧ orbitAngleTick 0 (-1) 1 1 < 2 * Real.pi) := by
  have h6 : (6 : ℝ) < 2 * Real.pi := by
    have := Real.pi_gt_three
    linarith
  have e : orbitAngleTick 0 (-1) 1 1 = -1 := by
    show rustRem (0 + -1 * 1 * 1) (2 * Real.pi) = -1
    rw [show (0 : ℝ) + -1 * 1 * 1 = -1 by norm_num]
    exact rustRem_eq_self_neg (-1) (2 * Real.pi) two_pi_pos (by linarith) (by norm_num)
  refine ⟨e, ?_⟩
  rw [e]
  intro h
  linarith [h.1]

/-- The wall-clock delta clamp of `SolarSystem::update` (line 592):
`safe_dt = if dt > 0.1 { 0.1 } else { dt }`. -/
noncomputable def clampDt (dt : ℝ) : ℝ :=
  if dt > 0.1 then 0.1 else dt

/-- One full simulation-clock tick for a body's `orbit_angle`: clamp the
wall-clock delta, then advance and wrap (lines 586-592 and 650-653). -/
noncomputable def orbitTick (angle dt speed ts : ℝ) : ℝ :=
  orbitAngleTick angle speed (clampDt dt) ts

/-- A sequence of simulation-clock ticks with the given wall-clock deltas,
applied to a body's `orbit_angle`. -/
noncomputable def ticksRun (dts : List ℝ) (speed ts angle : ℝ) : ℝ :=
  dts.foldl (fun x dt => orbitTick x dt speed ts) angle

/-- A small nonnegative 0.1-second tick at speed 1 and time scale 1 just
adds 0.1 to the angle. -/
lemma orbitTick_small (x : ℝ) (h0 : 0 ≤ x) (h1 : x ≤ 5) :
    orbitTick x 0.1 1 1 = x + 0.1 := by
  have hc : clampDt 0.1 = 0.1 := by
    simp [clampDt]
  have h6 : (6 : ℝ) < 2 * Real.pi := by
    have := Real.pi_gt_three
    linarith
  show rustRem (x + 1 * clampDt 0.1 * 1) (2 * Real.pi) = x + 0.1
  rw [hc, show x + 1 * (0.1 : ℝ) * 1 = x + 0.1 by ring]
  exact rustRem_eq_self (x + 0.1) (2 * Real.pi) two_pi_pos (by linarith)
    (by linarith)

/-- `n` consecutive 0.1-second ticks at speed 1, time scale 1 advance the
angle by `n * 0.1`, for small totals. -/
lemma ticksRun_replicate (n : ℕ) : ∀ x : ℝ, 0 ≤ x → x + n * 0.1 ≤ 5 →
    ticksRun (List.replicate n 0.1) 1 1 x = x + n * 0.1 := by
  induction n with
  | zero => intro x _ _; simp [ticksRun]
  | succ n ih =>
      intro x h0 h1
      have hn1 : x + (n + 1 : ℕ) * 0.1 = (x + 0.1) + n * 0.1 := by
        push_cast
        ring
      have hstep : orbitTick x 0.1 1 1 = x + 0.1 := by
        apply orbitTick_small x h0
        have : (0 : ℝ) ≤ (n + 1 : ℕ) * 0.1 := by positivity
        linarith [hn1]
      have hx1 : (0 : ℝ) ≤ x + 0.1 := by linarith
      have hx2 : (x + 0.1) + n * 0.1 ≤ 5 := by
        rw [← hn1]
        exact h1
      calc ticksRun (List.replicate (n + 1) 0.1) 1 1 x
          = ticksRun (List.replicate n 0.1) 1 1 (orbitTick x 0.1 1 1) := by
            simp [ticksRun, List.replicate_succ]
        _ = (x + 0.1) + n * 0.1 := by rw [hstep]; exact ih (x + 0.1) hx1 hx2
        _ = x + (n + 1 : ℕ) * 0.1 := hn1.symm

/-- C5 counterexample: a single wall-clock gap of 10 seconds (clamped to
0.1 s) advances `orbit_angle` from 0 to 0.1, while ten consecutive
0.1-second ticks at the same `time_scale` advance it to 1.0 — not the same
amount. -/
theorem dt_clamp_counterexample :
    ticksRun [10] 1 1 0 ≠ ticksRun (List.replicate 10 0.1) 1 1 0 := by
  have h6 : (6 : ℝ) < 2 * Real.pi := by
    have := Real.pi_gt_three
    linarith
  have hone : ticksRun [10] 1 1 0 = 0.1 := by
    have hc : clampDt 10 = 0.1 := by
      simp [clampDt]
      norm_num
    show rustRem (0 + 1 * clampDt 10 * 1) (2 * Real.pi) = 0.1
    rw [hc, show (0 : ℝ) + 1 * 0.1 * 1 = 0.1 by ring]
    exact rustRem_eq_self 0.1 (2 * Real.pi) two_pi_pos (by norm_num) (by linarith)
  have hten : ticksRun (List.replicate 10 0.1) 1 1 0 = 1 := by
    have := ticksRun_replicate 10 0 (le_refl 0) (by norm_num)
    rw [this]
    norm_num
  rw [hone, hten]
  norm_num

/-- C5, amended: the clock clamps the wall-clock delta to 0.1 s before
scaling, so a single 10-second gap advances `orbit_angle` by exactly the
same amount as a single 0.1-second tick at the same `time_scale` (one
tenth of what ten consecutive 0.1-second ticks produce). -/
theorem dt_clamp_equivalence (angle speed ts : ℝ) :
    orbitTick angle 10 speed ts = orbitTick angle 0.1 speed ts := by
  have h10 : clampDt 10 = 0.1 := by
    simp [clampDt]
    norm_num
  have h01 : clampDt 0.1 = 0.1 := by
    simp [clampDt]
  rw [orbitTick, orbitTick, h10, h01]

/-- The trail trim loop of `SolarSystem::update` (lines 776-778):
`while trail.len() > 3000 { trail.drain(0..3); }`. -/
def trimTrail (l : List ℝ) : List ℝ :=
  if _h : 3000 < l.length then trimTrail (l.drop 3) else l
termination_by l.length
decreasing_by
  simp only [List.length_drop]
  omega

/-- The trim loop always leaves at most 3000 floats. -/
lemma trimTrail_length_le : ∀ fuel l, l.length ≤ fuel → (trimTrail l).length ≤ 3000 := by
  intro fuel
  induction fuel with
  | zero =>
      intro l hl
      rw [trimTrail]
      have h0 : l.length = 0 := Nat.le_zero.mp hl
      rw [dif_neg (by omega)]
      omega
  | succ fuel ih =>
      intro l hl
      rw [trimTrail]
      by_cases h : 3000 < l.length
      · rw [dif_pos h]
        exact ih (l.drop 3) (by simp [List.length_drop]; omega)
      · rw [dif_neg h]
        omega

/-- The trim loop removes three floats at a time, so it preserves
divisibility of the length by 3. -/
lemma trimTrail_mod3 : ∀ fuel l, l.length ≤ fuel → l.length % 3 = 0 →
    (trimTrail l).length % 3 = 0 := by
  intro fuel
  induction fuel with
  | zero =>
      intro l hl h3
      rw [trimTrail, dif_neg (by omega)]
      exact h3
  | succ fuel ih =>
      intro l hl h3
      rw [trimTrail]
      by_cases h : 3000 < l.length
      · rw [dif_pos h]
        exact ih (l.drop 3) (by simp [List.length_drop]; omega)
          (by simp [List.length_drop]; omega)
      · rw [dif_neg h]
        exact h3

/-- A list of at least 3000 floats whose length is a multiple of 3 is
trimmed to exactly 3000 floats. -/
lemma trimTrail_eq_3000 : ∀ fuel l, l.length ≤ fuel → l.length % 3 = 0 →
    3000 ≤ l.length → (trimTrail l).length = 3000 := by
  intro fuel
  induction fuel with
  | zero =>
      intro l hl _ hge
      omega
  | succ fuel ih =>
      intro l hl h3 hge
      rw [trimTrail]
      by_cases h : 3000 < l.length
      · rw [dif_pos h]
        exact ih (l.drop 3) (by simp [List.length_drop]; omega)
          (by simp [List.length_drop]; omega) (by simp [List.length_drop]; omega)
      · rw [dif_neg h]
        omega

/-- The new trail samples of one tick (lines 738-770): for
`k in 1..=stepsToAdd`, the Kepler position at
`last_trail_angle + k * angle_step`, pushed as three floats. -/
noncomputable def trailSamples (a e i w o last : ℝ) (stepsToAdd : ℕ) : List ℝ :=
  (List.range stepsToAdd).flatMap fun k =>
    let p := keplerLocalPos a e (last + ((k : ℝ) + 1) * (2 * Real.pi / 1000)) i w o
    [p.1, p.2.1, p.2.2]

/-- Each sample is three floats. -/
lemma trailSamples_length (a e i w o last : ℝ) (stepsToAdd : ℕ) :
    (trailSamples a e i w o last stepsToAdd).length = 3 * stepsToAdd := by
  unfold trailSamples
  induction stepsToAdd with
  | zero => simp
  | succ n ih =>
      rw [List.range_succ, List.flatMap_append, List.length_append, ih]
      simp
      omega

/-- One tick of the trail history manager (lines 715-779): compute the
wrapped forward angular delta between `orbit_angle` and
`last_trail_angle`; when it reaches one angular step, append
`floor (delta / step)` samples capped at 1000, advance `last_trail_angle`
by the consumed angle (wrapped), and trim the trail from the front while
it exceeds 3000 floats.  Returns the new `last_trail_angle` and trail. -/
noncomputable def trailTick (a e i w o orbitAngle last : ℝ) (trail : List ℝ) :
    ℝ × List ℝ :=
  let twoPi := 2 * Real.pi
  let angleStep := twoPi / 1000
  let currentAngle := rustRem orbitAngle twoPi
  let lastAngle := rustRem last twoPi
  let diff0 := currentAngle - lastAngle
  let diff := if diff0 < 0 then diff0 + twoPi else diff0
  if angleStep ≤ diff then
    let steps := (Int.floor (diff / angleStep)).toNat
    let stepsToAdd := min steps 1000
    (rustRem (last + (steps : ℝ) * angleStep) twoPi,
      trimTrail (trail ++ trailSamples a e i w o last stepsToAdd))
  else (last, trail)

/-- A sequence of trail ticks driven by a list of `orbit_angle` values,
carrying `(last_trail_angle, trail)` as state. -/
noncomputable def trailRun (a e i w o : ℝ) (angles : List ℝ) (st : ℝ × List ℝ) :
    ℝ × List ℝ :=
  angles.foldl (fun s th => trailTick a e i w o th s.1 s.2) st

/-- One tick either leaves the trail unchanged or appends some whole
samples and trims. -/
lemma trailTick_snd (a e i w o orbitAngle last : ℝ) (trail : List ℝ) :
    (trailTick a e i w o orbitAngle last trail).2 = trail ∨
    ∃ k : ℕ, (trailTick a e i w o orbitAngle last trail).2 =
      trimTrail (trail ++ trailSamples a e i w o last k) := by
  simp only [trailTick]
  split
  · split
    · right; exact ⟨_, rfl⟩
    · left; rfl
  · split
    · right; exact ⟨_, rfl⟩
    · left; rfl

/-- One trail tick keeps the trail at most 3000 floats long. -/
lemma trailTick_length_le (a e i w o orbitAngle last : ℝ) (trail : List ℝ)
    (h : trail.length ≤ 3000) :
    (trailTick a e i w o orbitAngle last trail).2.length ≤ 3000 := by
  rcases trailTick_snd a e i w o orbitAngle last trail with he | ⟨k, he⟩
  · rw [he]; exact h
  · rw [he]; exact trimTrail_length_le _ _ (le_refl _)

/-- One trail tick keeps a full trail at exactly 3000 floats. -/
lemma trailTick_length_eq (a e i w o orbitAngle last : ℝ) (trail : List ℝ)
    (h : trail.length = 3000) :
    (trailTick a e i w o orbitAngle last trail).2.length = 3000 := by
  rcases trailTick_snd a e i w o orbitAngle last trail with he | ⟨k, he⟩
  · rw [he]; exact h
  · rw [he]
    apply trimTrail_eq_3000 _ _ (le_refl _)
    · rw [List.length_append, trailSamples_length, h]
      omega
    · rw [List.length_append, trailSamples_length, h]
      omega

/-- One trail tick preserves divisibility of the trail length by 3. -/
lemma trailTick_mod3 (a e i w o orbitAngle last : ℝ) (trail : List ℝ)
    (h : trail.length % 3 = 0) :
    (trailTick a e i w o orbitAngle last trail).2.length % 3 = 0 := by
  rcases trailTick_snd a e i w o orbitAngle last trail with he | ⟨k, he⟩
  · rw [he]; exact h
  · rw [he]
    apply trimTrail_mod3 _ _ (le_refl _)
    rw [List.length_append, trailSamples_length]
    omega

/-- The initial trail construction of `SolarSystem::new` (lines 424-472):
a trailed body (positive `orbit_radius`, nonzero `orbit_speed`, not a
minor body) gets 1000 Kepler samples of three floats each, one full
revolution behind the current angle; every other body starts with an
empty trail. -/
noncomputable def initTrail (trailed : Bool) (a e angle i w o : ℝ) : List ℝ :=
  if trailed then
    (List.range 1000).flatMap fun j =>
      let p := keplerLocalPos a e
        (angle + (-(2 * Real.pi) + (j : ℝ) * (2 * Real.pi / 1000))) i w o
      [p.1, p.2.1, p.2.2]
  else []

/-- The initial trail of a trailed body holds exactly 3000 floats. -/
lemma initTrail_length (a e angle i w o : ℝ) :
    (initTrail true a e angle i w o).length = 3000 := by
  unfold initTrail
  rw [if_pos rfl]
  have : ∀ n : ℕ, ((List.range n).flatMap fun j =>
      let p := keplerLocalPos a e
        (angle + (-(2 * Real.pi) + (j : ℝ) * (2 * Real.pi / 1000))) i w o
      [p.1, p.2.1, p.2.2]).length = 3 * n := by
    intro n
    induction n with
    | zero => simp
    | succ n ih =>
        rw [List.range_succ, List.flatMap_append, List.length_append, ih]
        simp
        omega
  rw [this 1000]

/-- Folding trail ticks preserves the 3000-float bound. -/
lemma trailRun_length_le (a e i w o : ℝ) :
    ∀ (angles : List ℝ) (st : ℝ × List ℝ), st.2.length ≤ 3000 →
      (trailRun a e i w o angles st).2.length ≤ 3000 := by
  intro angles
  induction angles with
  | nil => intro st h; exact h
  | cons th rest ih =>
      intro st h
      exact ih _ (trailTick_length_le a e i w o th st.1 st.2 h)

/-- Folding trail ticks keeps a full trail at exactly 3000 floats. -/
lemma trailRun_length_eq (a e i w o : ℝ) :
    ∀ (angles : List ℝ) (st : ℝ × List ℝ), st.2.length = 3000 →
      (trailRun a e i w o angles st).2.length = 3000 := by
  intro angles
  induction angles with
  | nil => intro st h; exact h
  | cons th rest ih =>
      intro st h
      exact ih _ (trailTick_length_eq a e i w o th st.1 st.2 h)

/-- C6: over any sequence of ticks (including large `dt` spikes), a trail
that starts within the 3000-float cap never exceeds it, a trail that
starts full stays at exactly 3000 floats, and the initial trail of a
trailed body is exactly 3000 floats (1000 position triples). -/
theorem trail_length_cap (a e i w o last angle : ℝ) (angles : List ℝ)
    (trail : List ℝ) :
    (trail.length ≤ 3000 →
      (trailRun a e i w o angles (last, trail)).2.length ≤ 3000) ∧
    (trail.length = 3000 →
      (trailRun a e i w o angles (last, trail)).2.length = 3000) ∧
    (initTrail true a e angle i w o).length = 3000 :=
  ⟨fun h => trailRun_length_le a e i w o angles (last, trail) h,
   fun h => trailRun_length_eq a e i w o angles (last, trail) h,
   initTrail_length a e angle i w o⟩

/-- C6 witness: a burst of ticks on a full 3000-float trail leaves it at
exactly 3000 floats. -/
theorem trail_length_cap_witness :
    (trailRun 1 0 0 0 0 [1, 2, 3] (0, List.replicate 3000 0)).2.length = 3000 :=
  (trail_length_cap 1 0 0 0 0 0 0 [1, 2, 3] (List.replicate 3000 0)).2.1
    (List.length_replicate 3000 0)

/-- C10: every trail length is a multiple of 3 — the initial construction
pushes three floats per sample, each per-tick append adds three floats per
sample, and trimming removes three floats at a time. -/
theorem trail_triple_invariant (b : Bool) (a e angle i w o cur last : ℝ)
    (trail : List ℝ) (h3 : trail.length % 3 = 0) :
    (initTrail b a e angle i w o).length % 3 = 0 ∧
    (trailTick a e i w o cur last trail).2.length % 3 = 0 ∧
    (∀ l : List ℝ, l.length % 3 = 0 → (trimTrail l).length % 3 = 0) := by
  refine ⟨?_, trailTick_mod3 a e i w o cur last trail h3,
    fun l hl => trimTrail_mod3 _ _ (le_refl _) hl⟩
  cases b
  · simp [initTrail]
  · rw [initTrail_length]

/-- C10 witness: one tick on an empty trail keeps the length a multiple
of 3. -/
theorem trail_triple_invariant_witness :
    (trailTick 1 0 0 0 0 2 0 ([] : List ℝ)).2.length % 3 = 0 :=
  (trail_triple_invariant true 1 0 0 0 0 0 2 0 [] (by simp)).2.1

/-- The focus position used for recentring in `SolarSystem::render`
(lines 825-829): the focused body's absolute position, or the origin when
no body is focused. -/
noncomputable def focusTarget (positions : ℕ → Vec3) (focus : Option ℕ) : Vec3 :=
  match focus with
  | some idx => positions idx
  | none => ((0 : ℝ), (0 : ℝ), (0 : ℝ))

/-- A body's focus-relative position (line 898): its absolute position
minus the focus position. -/
noncomputable def relativePos (positions : ℕ → Vec3) (focus : Option ℕ)
    (j : ℕ) : Vec3 :=
  positions j - focusTarget positions focus

/-- C7: with the focus on body `A`, body `A`'s focus-relative position is
exactly the zero vector; with no body focused, the focus position used for
recentring is the origin. -/
theorem focus_recentring :
    (∀ (positions : ℕ → Vec3) (A : ℕ),
      relativePos positions (some A) A = ((0 : ℝ), (0 : ℝ), (0 : ℝ))) ∧
    (∀ positions : ℕ → Vec3,
      focusTarget positions none = ((0 : ℝ), (0 : ℝ), (0 : ℝ))) := by
  constructor
  · intro positions A
    simp [relativePos, focusTarget, Prod.ext_iff]
  · intro positions
    rfl

/-- The LOD policy of `SolarSystem::render` (lines 928-951): with camera
distance `dist` and angular-size constant `k`, compute
`min_size = dist * k`; if it exceeds the body's radius, render at
`min_size` without texture (flat color), otherwise render at the true
radius with full texture detail. -/
noncomputable def lodChoice (dist radius k : ℝ) : ℝ × Bool :=
  let minSize := dist * k
  if radius < minSize then (minSize, false) else (radius, true)

/-- The angular-size constant for major bodies (line 944). -/
noncomputable def kMajor : ℝ := 0.002

/-- The angular-size constant for minor-body populations (line 929). -/
noncomputable def kMinor : ℝ := 0.0005

/-- The chosen render radius is the larger of `dist * k` and the true
radius. -/
lemma lodChoice_fst (dist radius k : ℝ) :
    (lodChoice dist radius k).1 = max (dist * k) radius := by
  simp only [lodChoice]
  split
  · rw [max_eq_left (le_of_lt (by assumption))]
  · rw [max_eq_right (not_lt.mp (by assumption))]

/-- C8: the LOD render radius is `max (d * k) radius`, monotone
non-decreasing in the camera distance `d`; full texture detail is used
exactly when the true radius is at least `d * k`, and otherwise the body
is drawn at `d * k` in flat color.  The constants are `0.002` for major
bodies and `0.0005` for minor-body populations. -/
theorem lod_policy (d1 d2 radius k : ℝ) (hk : 0 ≤ k) (hd : d1 ≤ d2) :
    (lodChoice d1 radius k).1 = max (d1 * k) radius ∧
    (lodChoice d1 radius k).1 ≤ (lodChoice d2 radius k).1 ∧
    ((lodChoice d1 radius k).2 = true ↔ d1 * k ≤ radius) ∧
    ((lodChoice d1 radius k).2 = false → (lodChoice d1 radius k).1 = d1 * k) ∧
    kMajor = 0.002 ∧ kMinor = 0.0005 := by
  refine ⟨lodChoice_fst d1 radius k, ?_, ?_, ?_, rfl, rfl⟩
  · rw [lodChoice_fst, lodChoice_fst]
    exact max_le_max (mul_le_mul_of_nonneg_right hd hk) (le_refl radius)
  · simp only [lodChoice]
    split
    · simpa using not_le.mpr (by assumption)
    · simpa using not_lt.mp (by assumption)
  · simp only [lodChoice]
    split
    · intro _; rfl
    · intro hfalse; simp at hfalse

/-- C8 witness: monotonicity of the render radius at concrete distances
with the major-body constant. -/
theorem lod_policy_witness :
    (lodChoice 1 5 kMajor).1 ≤ (lodChoice 2 5 kMajor).1 :=
  (lod_policy 1 2 5 kMajor (by rw [kMajor]; norm_num) (by norm_num)).2.1

/-- The focus update of `SolarSystem::select_body` (lines 515-573): an
in-range index becomes the focused body, any out-of-range index clears
the focus. -/
def selectBodyFocus (n index : ℕ) : Option ℕ :=
  if index < n then some index else none

/-- C9: selecting an out-of-range body index clears the focus, so
rendering recenters on the origin, while a valid index sets that body as
the focus. -/
theorem select_body_bounds (n index : ℕ) (positions : ℕ → Vec3) :
    (n ≤ index → selectBodyFocus n index = none ∧
      focusTarget positions (selectBodyFocus n index) = ((0 : ℝ), (0 : ℝ), (0 : ℝ))) ∧
    (index < n → selectBodyFocus n index = some index) := by
  constructor
  · intro h
    have : ¬ index < n := by omega
    constructor
    · simp [selectBodyFocus, this]
    · simp [selectBodyFocus, this, focusTarget]
  · intro h
    simp [selectBodyFocus, h]

/-- C9 witness: selecting index 5 among 2 bodies clears the focus and
recenters on the origin. -/
theorem select_body_bounds_witness :
    selectBodyFocus 2 5 = none ∧
    focusTarget (fun _ => ((1 : ℝ), (2 : ℝ), (3 : ℝ))) (selectBodyFocus 2 5) =
      ((0 : ℝ), (0 : ℝ), (0 : ℝ)) :=
  (select_body_bounds 2 5 (fun _ => ((1 : ℝ), (2 : ℝ), (3 : ℝ)))).1 (by norm_num)
